import Mathlib

/-!
Verification development for the SIF repository (src/sif.py).

The numeric core of the repository is embedded shallowly:
  * scalar spectral arithmetic is carried out over `ℚ` (exact arithmetic;
    rational division is total with `x / 0 = 0`),
  * the IEEE-754-style exceptional behaviour of the division in `FLD` is
    captured separately by the value type `FpVal` (`fdiv`),
  * one-dimensional numpy arrays become `List ℚ`, and numpy's broadcasting
    rule for binary operations on them becomes `bop`,
  * the geometric part (`pos_to_vec`, `cosine_vec`, `cosine`) is embedded
    over `ℝ`, with rows of the N×3 arrays as triples `ℝ × ℝ × ℝ` and the
    two-dimensional results as `List (List ℝ)`; numpy's broadcasting of
    `norm(n) * norm(sun)` and of the matrix-by-vector division, and the
    final transpose `.T`, are modelled by `bcastMul`, `bcastDivMat` and
    `trMat`, with a broadcasting error represented as `none`.
-/

namespace Sif

/-- Fraunhofer line depth method of SIF estimation, `FLD` in src/sif.py:
`(E_out * L_in - L_out * E_in) / (E_out - E_in)`.  Arguments are positional
in the order `L_in L_out E_in E_out` of the keyword-only parameters. -/
def FLD (L_in L_out E_in E_out : ℚ) : ℚ :=
  (E_out * L_in - L_out * E_in) / (E_out - E_in)

/-- `_SIF_O2A` in src/sif.py: arguments `L_757 L_760 E_757 E_760`; the body
calls `FLD` with `L_in = L_760`, `L_out = L_757`, `E_in = E_760`,
`E_out = E_757`. -/
def SIF_O2A (L_757 L_760 E_757 E_760 : ℚ) : ℚ :=
  FLD L_760 L_757 E_760 E_757

/-- `_SIF_O2B` in src/sif.py: arguments `L_685 L_687 E_685 E_687`; the body
calls `FLD` with `L_in = L_685`, `L_out = L_687`, `E_in = E_685`,
`E_out = E_687`. -/
def SIF_O2B (L_685 L_687 E_685 E_687 : ℚ) : ℚ :=
  FLD L_685 L_687 E_685 E_687

/-- An IEEE-754-style value: a finite (exact) number, NaN, or a signed
infinity.  Used to model the floating-point behaviour of numpy division
at a zero denominator. -/
inductive FpVal where
  | val (q : ℚ)
  | nan
  | posInf
  | negInf
deriving DecidableEq

/-- IEEE-754-style division on exact operands: `0 / 0` is NaN, `a / 0` for
`a ≠ 0` is a signed infinity, and otherwise the exact quotient. -/
def fdiv (a b : ℚ) : FpVal :=
  if b = 0 then
    if a = 0 then FpVal.nan
    else if 0 < a then FpVal.posInf
    else FpVal.negInf
  else FpVal.val (a / b)

/-- `FLD` of src/sif.py with the division read under IEEE-754 semantics
(`fdiv`), capturing what numpy does at a zero denominator. -/
def FLD_fp (L_in L_out E_in E_out : ℚ) : FpVal :=
  fdiv (E_out * L_in - L_out * E_in) (E_out - E_in)

/-- Numpy's broadcasting rule for a binary elementwise operation on two
one-dimensional arrays: equal lengths act elementwise; a length-one operand
is stretched; anything else is a broadcasting error (`none`). -/
def bop (f : ℚ → ℚ → ℚ) (a b : List ℚ) : Option (List ℚ) :=
  if a.length = b.length then some (List.zipWith f a b)
  else if a.length = 1 then some (b.map (fun y => f (a.headD 0) y))
  else if b.length = 1 then some (a.map (fun x => f x (b.headD 0)))
  else none

/-- `FLD` of src/sif.py applied to one-dimensional arrays, with every
binary operation broadcast by numpy's rule (`bop`):
`(E_out * L_in - L_out * E_in) / (E_out - E_in)`. -/
def FLDarr (L_in L_out E_in E_out : List ℚ) : Option (List ℚ) :=
  (bop (fun x y => x * y) E_out L_in).bind fun t1 =>
  (bop (fun x y => x * y) L_out E_in).bind fun t2 =>
  (bop (fun x y => x - y) t1 t2).bind fun num =>
  (bop (fun x y => x - y) E_out E_in).bind fun den =>
  bop (fun x y => x / y) num den

/-- Apply a quaternary scalar function elementwise to four lists,
truncating at the shortest. -/
def map4 (f : ℚ → ℚ → ℚ → ℚ → ℚ) : List ℚ → List ℚ → List ℚ → List ℚ → List ℚ
  | a :: as, b :: bs, c :: cs, d :: ds => f a b c d :: map4 f as bs cs ds
  | _, _, _, _ => []

noncomputable section

/-- `np.deg2rad`: degrees to radians. -/
def deg2rad (d : ℝ) : ℝ := d * (Real.pi / 180)

/-- The pre-normalization direction vector formed inside `pos_to_vec` of
src/sif.py for one (azimuth, altitude) pair, already in radians applied:
`(sin azimuth_rad, cos azimuth_rad, sin altitude_rad)`. -/
def rawVec (p : ℝ × ℝ) : ℝ × ℝ × ℝ :=
  (Real.sin (deg2rad p.1), Real.cos (deg2rad p.1), Real.sin (deg2rad p.2))

/-- Euclidean (L2) norm of a 3-vector, `np.linalg.norm(v, 2)`. -/
def norm3 (u : ℝ × ℝ × ℝ) : ℝ :=
  Real.sqrt (u.1 ^ 2 + u.2.1 ^ 2 + u.2.2 ^ 2)

/-- Componentwise division of a 3-vector by a scalar. -/
def vdiv3 (u : ℝ × ℝ × ℝ) (c : ℝ) : ℝ × ℝ × ℝ :=
  (u.1 / c, u.2.1 / c, u.2.2 / c)

/-- `pos_to_vec` of src/sif.py: each (azimuth, altitude) pair in degrees is
converted to radians, turned into `(sin az, cos az, sin alt)`, and divided
by that column's Euclidean norm (`axis=0` norm of the stacked 3×N array,
i.e. per position); the transpose at the end makes the result N×3. -/
def pos_to_vec (pos : List (ℝ × ℝ)) : List (ℝ × ℝ × ℝ) :=
  pos.map fun p => vdiv3 (rawVec p) (norm3 (rawVec p))

/-- Dot product of two 3-vectors. -/
def dot3 (u w : ℝ × ℝ × ℝ) : ℝ :=
  u.1 * w.1 + u.2.1 * w.2.1 + u.2.2 * w.2.2

/-- `np.dot(n, sun.T)` for an N×3 array `n` and an M×3 array `sun`:
the N×M matrix of pairwise dot products. -/
def matmulT (n sun : List (ℝ × ℝ × ℝ)) : List (List ℝ) :=
  n.map fun u => sun.map fun w => dot3 u w

/-- Numpy's broadcast product of two one-dimensional real arrays, as used
for `np.linalg.norm(n, 2, axis=1) * np.linalg.norm(sun, 2, axis=1)`:
shapes `(N,) * (M,)` require `N = M` or one of them to be 1. -/
def bcastMul (a b : List ℝ) : Option (List ℝ) :=
  if a.length = b.length then some (List.zipWith (fun x y => x * y) a b)
  else if a.length = 1 then some (b.map (fun y => a.headD 0 * y))
  else if b.length = 1 then some (a.map (fun x => x * b.headD 0))
  else none

/-- Numpy's broadcast division of an N×M matrix by a one-dimensional array
of length K, which numpy aligns with the columns: it requires `K = M`,
`M = 1`, or `K = 1`, and otherwise raises (`none`). -/
def bcastDivMat (A : List (List ℝ)) (d : List ℝ) : Option (List (List ℝ)) :=
  if d.length = (A.headD []).length then
    some (A.map fun row => List.zipWith (fun x c => x / c) row d)
  else if (A.headD []).length = 1 then
    some (A.map fun row => d.map fun c => row.headD 0 / c)
  else if d.length = 1 then
    some (A.map fun row => row.map fun x => x / d.headD 0)
  else none

/-- `.T` on a rectangular matrix given as a list of rows. -/
def trMat (A : List (List ℝ)) : List (List ℝ) :=
  (List.range (A.headD []).length).map fun j => A.map fun row => row.getD j 0

/-- `cosine_vec` of src/sif.py:
`(np.dot(n, sun.T) / (norm(n, axis=1) * norm(sun, axis=1))).T`,
with numpy's broadcasting and a broadcasting error modelled as `none`. -/
def cosine_vec (n sun : List (ℝ × ℝ × ℝ)) : Option (List (List ℝ)) :=
  (bcastMul (n.map norm3) (sun.map norm3)).bind fun d =>
  (bcastDivMat (matmulT n sun) d).bind fun B =>
  some (trMat B)

/-- `cosine` of src/sif.py: convert both angle arrays with `pos_to_vec`
and hand the vectors to `cosine_vec`. -/
def cosine (n sun : List (ℝ × ℝ)) : Option (List (List ℝ)) :=
  cosine_vec (pos_to_vec n) (pos_to_vec sun)

end

/-! ### Helper lemmas -/

/-- On equal-length operands `bop` is plain `zipWith`. -/
lemma bop_of_eq_length (f : ℚ → ℚ → ℚ) {a b : List ℚ}
    (h : a.length = b.length) : bop f a b = some (List.zipWith f a b) := by
  simp [bop, h]

/-- When neither operand has length one, `bop` either acts elementwise on
equal lengths or fails. -/
lemma bop_of_ne_one (f : ℚ → ℚ → ℚ) {a b : List ℚ}
    (ha : a.length ≠ 1) (hb : b.length ≠ 1) :
    bop f a b = if a.length = b.length then some (List.zipWith f a b) else none := by
  simp [bop, ha, hb]

/-- The chain of `zipWith`s computed by `FLDarr` is the elementwise scalar
`FLD` formula. -/
lemma zip_chain_eq_map4 :
    ∀ la lb lc ld : List ℚ,
      List.zipWith (fun x y => x / y)
        (List.zipWith (fun x y => x - y)
          (List.zipWith (fun x y => x * y) ld la)
          (List.zipWith (fun x y => x * y) lb lc))
        (List.zipWith (fun x y => x - y) ld lc)
      = map4 (fun a b c d => (d * a - b * c) / (d - c)) la lb lc ld := by
  intro la
  induction la with
  | nil => intro lb lc ld; cases lb <;> cases lc <;> cases ld <;> simp [map4]
  | cons a as ih =>
    intro lb lc ld
    cases lb with
    | nil => cases lc <;> cases ld <;> simp [map4]
    | cons b bs =>
      cases lc with
      | nil => cases ld <;> simp [map4]
      | cons c cs =>
        cases ld with
        | nil => simp [map4]
        | cons d ds => simpa [map4] using ih bs cs ds

/-- The norm of the pre-normalization vector of `pos_to_vec` is at least 1,
since its first two components are a sine and cosine of the same angle. -/
lemma one_le_norm3_rawVec (p : ℝ × ℝ) : 1 ≤ norm3 (rawVec p) := by
  have hs : Real.sin (deg2rad p.1) ^ 2 + Real.cos (deg2rad p.1) ^ 2 = 1 :=
    Real.sin_sq_add_cos_sq _
  calc (1:ℝ) = Real.sqrt 1 := Real.sqrt_one.symm
    _ ≤ Real.sqrt (Real.sin (deg2rad p.1) ^ 2 + Real.cos (deg2rad p.1) ^ 2
          + Real.sin (deg2rad p.2) ^ 2) := by
        apply Real.sqrt_le_sqrt
        nlinarith [sq_nonneg (Real.sin (deg2rad p.2))]
    _ = norm3 (rawVec p) := rfl

/-- Dividing a 3-vector by a nonnegative scalar divides its norm. -/
lemma norm3_vdiv3 (u : ℝ × ℝ × ℝ) {c : ℝ} (hc : 0 ≤ c) :
    norm3 (vdiv3 u c) = norm3 u / c := by
  unfold norm3 vdiv3
  simp only [div_pow, div_add_div_same]
  rw [Real.sqrt_div (by positivity), Real.sqrt_sq hc]

/-- Every row of `pos_to_vec` is a unit vector. -/
lemma mem_pos_to_vec_unit {ps : List (ℝ × ℝ)} {v : ℝ × ℝ × ℝ}
    (hv : v ∈ pos_to_vec ps) : norm3 v = 1 := by
  unfold pos_to_vec at hv
  obtain ⟨p, _, rfl⟩ := List.mem_map.mp hv
  have h1 := one_le_norm3_rawVec p
  rw [norm3_vdiv3 _ (by linarith), div_self (by linarith)]

/-- Cauchy–Schwarz for 3-vectors. -/
lemma abs_dot3_le (u w : ℝ × ℝ × ℝ) : |dot3 u w| ≤ norm3 u * norm3 w := by
  unfold dot3 norm3
  have key : (u.1 * w.1 + u.2.1 * w.2.1 + u.2.2 * w.2.2) ^ 2
      ≤ (u.1 ^ 2 + u.2.1 ^ 2 + u.2.2 ^ 2) * (w.1 ^ 2 + w.2.1 ^ 2 + w.2.2 ^ 2) := by
    nlinarith [sq_nonneg (u.1 * w.2.1 - u.2.1 * w.1),
      sq_nonneg (u.1 * w.2.2 - u.2.2 * w.1),
      sq_nonneg (u.2.1 * w.2.2 - u.2.2 * w.2.1)]
  calc |u.1 * w.1 + u.2.1 * w.2.1 + u.2.2 * w.2.2|
      = Real.sqrt ((u.1 * w.1 + u.2.1 * w.2.1 + u.2.2 * w.2.2) ^ 2) :=
        (Real.sqrt_sq_eq_abs _).symm
    _ ≤ Real.sqrt ((u.1 ^ 2 + u.2.1 ^ 2 + u.2.2 ^ 2)
          * (w.1 ^ 2 + w.2.1 ^ 2 + w.2.2 ^ 2)) := Real.sqrt_le_sqrt key
    _ = Real.sqrt (u.1 ^ 2 + u.2.1 ^ 2 + u.2.2 ^ 2)
          * Real.sqrt (w.1 ^ 2 + w.2.1 ^ 2 + w.2.2 ^ 2) :=
        Real.sqrt_mul (by positivity) _

/-- The dot product of two unit 3-vectors lies in [-1, 1]. -/
lemma dot3_unit_bnd {u w : ℝ × ℝ × ℝ} (hu : norm3 u = 1) (hw : norm3 w = 1) :
    -1 ≤ dot3 u w ∧ dot3 u w ≤ 1 := by
  have h := abs_dot3_le u w
  rw [hu, hw, mul_one] at h
  exact abs_le.mp h

/-- `zipWith` of a product of all-ones lists is all ones. -/
lemma zipWith_mul_ones : ∀ (a b : List ℝ), (∀ x ∈ a, x = 1) → (∀ x ∈ b, x = 1) →
    ∀ c ∈ List.zipWith (fun x y => x * y) a b, c = 1 := by
  intro a
  induction a with
  | nil => intro b _ _ c hc; simp at hc
  | cons x xs ih =>
    intro b ha hb c hc
    cases b with
    | nil => simp at hc
    | cons y ys =>
      rw [List.zipWith_cons_cons] at hc
      rcases List.mem_cons.mp hc with h | h
      · subst h
        rw [ha x (by simp), hb y (by simp), one_mul]
      · exact ih ys (fun z hz => ha z (by simp [hz]))
          (fun z hz => hb z (by simp [hz])) c h

/-- A broadcast product of all-ones lists is all ones. -/
lemma bcastMul_ones {a b d : List ℝ} (ha : ∀ x ∈ a, x = 1)
    (hb : ∀ x ∈ b, x = 1) (h : bcastMul a b = some d) : ∀ c ∈ d, c = 1 := by
  unfold bcastMul at h
  split_ifs at h with h1 h2 h3 <;>
    simp only [Option.some.injEq] at h <;> subst h
  · exact zipWith_mul_ones a b ha hb
  · intro c hc
    obtain ⟨y, hy, rfl⟩ := List.mem_map.mp hc
    cases a with
    | nil => simp at h2
    | cons x xs =>
      cases xs with
      | nil => simp only [List.headD_cons]
               rw [ha x (by simp), hb y hy, one_mul]
      | cons z zs => simp at h2
  · intro c hc
    obtain ⟨x, hx, rfl⟩ := List.mem_map.mp hc
    cases b with
    | nil => simp at h3
    | cons y ys =>
      cases ys with
      | nil => simp only [List.headD_cons]
               rw [ha x hx, hb y (by simp), one_mul]
      | cons z zs => simp at h3

/-- The head (with default 0) of a list of entries in [-1, 1] is in [-1, 1]. -/
lemma headD_bnd {l : List ℝ} (h : ∀ x ∈ l, -1 ≤ x ∧ x ≤ 1) :
    -1 ≤ l.headD 0 ∧ l.headD 0 ≤ 1 := by
  cases l with
  | nil => norm_num
  | cons a as => exact h a (List.mem_cons_self a as)

/-- Any `getD`-indexed entry (with default 0) of a list of entries in
[-1, 1] is in [-1, 1]. -/
lemma getD_bnd : ∀ (l : List ℝ) (j : ℕ), (∀ x ∈ l, -1 ≤ x ∧ x ≤ 1) →
    -1 ≤ l.getD j 0 ∧ l.getD j 0 ≤ 1 := by
  intro l
  induction l with
  | nil => intro j _; norm_num [List.getD]
  | cons a as ih =>
    intro j h
    cases j with
    | zero => simpa using h a (List.mem_cons_self a as)
    | succ m =>
      simpa using ih m (fun x hx => h x (List.mem_cons_of_mem a hx))

/-- Dividing a value in [-1, 1] by 1 or by 0 stays in [-1, 1]. -/
lemma div_one_or_zero_bnd {x c : ℝ} (hx : -1 ≤ x ∧ x ≤ 1)
    (hc : c = 1 ∨ c = 0) : -1 ≤ x / c ∧ x / c ≤ 1 := by
  rcases hc with rfl | rfl
  · simpa using hx
  · norm_num

/-- Elementwise division of a bounded row by an all-ones list is bounded. -/
lemma zipWith_div_bnd : ∀ (row d : List ℝ), (∀ x ∈ row, -1 ≤ x ∧ x ≤ 1) →
    (∀ c ∈ d, c = 1) →
    ∀ x ∈ List.zipWith (fun x c => x / c) row d, -1 ≤ x ∧ x ≤ 1 := by
  intro row
  induction row with
  | nil => intro d _ _ x hx; simp at hx
  | cons a as ih =>
    intro d hrow hd x hx
    cases d with
    | nil => simp at hx
    | cons c cs =>
      rw [List.zipWith_cons_cons] at hx
      rcases List.mem_cons.mp hx with h | h
      · subst h
        exact div_one_or_zero_bnd (hrow a (by simp)) (Or.inl (hd c (by simp)))
      · exact ih cs (fun z hz => hrow z (by simp [hz]))
          (fun z hz => hd z (by simp [hz])) x h

/-- The broadcast division of a matrix with entries in [-1, 1] by an
all-ones divisor array keeps every entry in [-1, 1]. -/
lemma bcastDivMat_bnd {A : List (List ℝ)} {d : List ℝ} {B : List (List ℝ)}
    (hA : ∀ row ∈ A, ∀ x ∈ row, -1 ≤ x ∧ x ≤ 1) (hd : ∀ c ∈ d, c = 1)
    (h : bcastDivMat A d = some B) :
    ∀ row ∈ B, ∀ x ∈ row, -1 ≤ x ∧ x ≤ 1 := by
  unfold bcastDivMat at h
  split_ifs at h with h1 h2 h3 <;>
    simp only [Option.some.injEq] at h <;> subst h
  · intro row' hrow' x hx
    obtain ⟨row, hrow, rfl⟩ := List.mem_map.mp hrow'
    exact zipWith_div_bnd row d (hA row hrow) hd x hx
  · intro row' hrow' x hx
    obtain ⟨row, hrow, rfl⟩ := List.mem_map.mp hrow'
    obtain ⟨c, hc, rfl⟩ := List.mem_map.mp hx
    exact div_one_or_zero_bnd (headD_bnd (hA row hrow)) (Or.inl (hd c hc))
  · intro row' hrow' x hx
    obtain ⟨row, hrow, rfl⟩ := List.mem_map.mp hrow'
    obtain ⟨a, ha, rfl⟩ := List.mem_map.mp hx
    have hh : d.headD 0 = 1 ∨ d.headD 0 = 0 := by
      cases d with
      | nil => right; rfl
      | cons c cs => left; exact hd c (List.mem_cons_self c cs)
    exact div_one_or_zero_bnd (hA row hrow a ha) hh

/-- Transposition keeps every entry in [-1, 1] (absent entries default
to 0, which is also in range). -/
lemma trMat_bnd {B : List (List ℝ)}
    (hB : ∀ row ∈ B, ∀ x ∈ row, -1 ≤ x ∧ x ≤ 1) :
    ∀ row ∈ trMat B, ∀ x ∈ row, -1 ≤ x ∧ x ≤ 1 := by
  intro row' hrow' x hx
  unfold trMat at hrow'
  obtain ⟨j, _, rfl⟩ := List.mem_map.mp hrow'
  obtain ⟨row, hrow, rfl⟩ := List.mem_map.mp hx
  exact getD_bnd row j (hB row hrow)

/-- Every entry of `np.dot(n, sun.T)` for unit rows lies in [-1, 1]. -/
lemma matmulT_unit_bnd {n sun : List (ℝ × ℝ × ℝ)}
    (hn : ∀ u ∈ n, norm3 u = 1) (hs : ∀ w ∈ sun, norm3 w = 1) :
    ∀ row ∈ matmulT n sun, ∀ x ∈ row, -1 ≤ x ∧ x ≤ 1 := by
  intro row hrow x hx
  unfold matmulT at hrow
  obtain ⟨u, hu, rfl⟩ := List.mem_map.mp hrow
  obtain ⟨w, hw, rfl⟩ := List.mem_map.mp hx
  exact dot3_unit_bnd (hn u hu) (hs w hw)

/-- Concrete evaluation of `pos_to_vec` at azimuth 0, altitude 0. -/
lemma pos_to_vec_zero_eval :
    pos_to_vec [((0:ℝ), (0:ℝ))] = [((0:ℝ), (1:ℝ), (0:ℝ))] := by
  have hraw : rawVec ((0:ℝ), (0:ℝ)) = ((0:ℝ), (1:ℝ), (0:ℝ)) := by
    unfold rawVec deg2rad
    norm_num
  have hnorm : norm3 ((0:ℝ), (1:ℝ), (0:ℝ)) = 1 := by
    unfold norm3
    norm_num [Real.sqrt_one]
  unfold pos_to_vec
  simp only [List.map_cons, List.map_nil]
  rw [hraw, hnorm]
  unfold vdiv3
  norm_num

/-- Concrete value of `norm3` on the first standard basis vector. -/
lemma norm3_e1 : norm3 ((1:ℝ), (0:ℝ), (0:ℝ)) = 1 := by
  norm_num [norm3]

/-- Concrete value of `norm3` on the second standard basis vector. -/
lemma norm3_e2 : norm3 ((0:ℝ), (1:ℝ), (0:ℝ)) = 1 := by
  norm_num [norm3]

end Sif

/-! ### Claim theorems -/

/-- C1: for equal-length array inputs, `FLD` returns
`(E_out * L_in - L_out * E_in) / (E_out - E_in)` elementwise; in
particular `FLD (L_in := 0.5) (L_out := 1.0) (E_in := 0.8) (E_out := 1.2) = -0.5`. -/
theorem Sif.FLD_elementwise (la lb lc ld : List ℚ)
    (h1 : la.length = lb.length) (h2 : lb.length = lc.length)
    (h3 : lc.length = ld.length) :
    FLDarr la lb lc ld
      = some (map4 (fun a b c d => (d * a - b * c) / (d - c)) la lb lc ld)
    ∧ FLD (1/2) 1 (4/5) (6/5) = -(1/2) := by
  constructor
  · have e1 : ld.length = la.length := by omega
    have e2 : lb.length = lc.length := h2
    rw [FLDarr, bop_of_eq_length _ e1, Option.some_bind,
      bop_of_eq_length _ e2, Option.some_bind]
    have e3 : (List.zipWith (fun x y => x * y) ld la).length
        = (List.zipWith (fun x y => x * y) lb lc).length := by
      simp [List.length_zipWith]; omega
    rw [bop_of_eq_length _ e3, Option.some_bind]
    have e4 : ld.length = lc.length := by omega
    rw [bop_of_eq_length _ e4, Option.some_bind]
    have e5 : (List.zipWith (fun x y => x - y)
        (List.zipWith (fun x y => x * y) ld la)
        (List.zipWith (fun x y => x * y) lb lc)).length
        = (List.zipWith (fun x y => x - y) ld lc).length := by
      simp [List.length_zipWith]; omega
    rw [bop_of_eq_length _ e5, zip_chain_eq_map4]
  · norm_num [FLD]

/-- C1 witness: the theorem applied to concrete singleton arrays. -/
theorem Sif.FLD_elementwise_witness :
    ([(1:ℚ)/2].length = [(1:ℚ)].length ∧ [(1:ℚ)].length = [(4:ℚ)/5].length
      ∧ [(4:ℚ)/5].length = [(6:ℚ)/5].length)
    ∧ (Sif.FLDarr [(1:ℚ)/2] [1] [4/5] [6/5]
        = some (Sif.map4 (fun a b c d => (d * a - b * c) / (d - c))
            [(1:ℚ)/2] [1] [4/5] [6/5])
      ∧ Sif.FLD (1/2) 1 (4/5) (6/5) = -(1/2)) :=
  ⟨⟨rfl, rfl, rfl⟩, Sif.FLD_elementwise [(1:ℚ)/2] [1] [4/5] [6/5] rfl rfl rfl⟩

/-- C2: evaluation of `cosine_vec` at a concrete failing input.  For
`n = [e1, e2]` and `sun = [e1, e1]` (all unit vectors) the code returns
`[[1, 0], [1, 0]]`, whose entry [0,1] is 0, while the claimed formula
`dot(n_0, sun_1) / (‖n_0‖ * ‖sun_1‖)` gives 1; and for N = 2, M = 3 the
code raises a broadcasting error (`none`) instead of returning a 2×3
matrix. -/
theorem Sif.cosine_vec_transposed :
    Sif.cosine_vec [((1:ℝ), 0, 0), ((0:ℝ), 1, 0)]
        [((1:ℝ), 0, 0), ((1:ℝ), 0, 0)]
      = some [[1, 0], [1, 0]]
    ∧ Sif.dot3 ((1:ℝ), 0, 0) ((1:ℝ), 0, 0)
        / (Sif.norm3 ((1:ℝ), 0, 0) * Sif.norm3 ((1:ℝ), 0, 0)) = 1
    ∧ Sif.cosine_vec [((1:ℝ), 0, 0), ((0:ℝ), 1, 0)]
        [((1:ℝ), 0, 0), ((1:ℝ), 0, 0), ((1:ℝ), 0, 0)] = none := by
  refine ⟨?_, ?_, ?_⟩
  · have hd : Sif.bcastMul
        ([((1:ℝ), 0, 0), ((0:ℝ), 1, 0)].map Sif.norm3)
        ([((1:ℝ), 0, 0), ((1:ℝ), 0, 0)].map Sif.norm3) = some [1, 1] := by
      simp only [List.map_cons, List.map_nil, Sif.norm3_e1, Sif.norm3_e2]
      unfold Sif.bcastMul
      norm_num
    have hA : Sif.matmulT [((1:ℝ), 0, 0), ((0:ℝ), 1, 0)]
        [((1:ℝ), 0, 0), ((1:ℝ), 0, 0)] = [[1, 1], [0, 0]] := by
      unfold Sif.matmulT Sif.dot3
      norm_num
    have hB : Sif.bcastDivMat [[(1:ℝ), 1], [0, 0]] [1, 1]
        = some [[1, 1], [0, 0]] := by
      unfold Sif.bcastDivMat
      norm_num
    have hT : Sif.trMat [[(1:ℝ), 1], [(0:ℝ), 0]] = [[1, 0], [1, 0]] := by
      unfold Sif.trMat
      norm_num [List.range_succ, List.getD_cons_zero, List.getD_cons_succ]
    unfold Sif.cosine_vec
    rw [hd, Option.some_bind, hA, hB, Option.some_bind, hT]
  · rw [Sif.norm3_e1]
    norm_num [Sif.dot3]
  · have hd : Sif.bcastMul
        ([((1:ℝ), 0, 0), ((0:ℝ), 1, 0)].map Sif.norm3)
        ([((1:ℝ), 0, 0), ((1:ℝ), 0, 0), ((1:ℝ), 0, 0)].map Sif.norm3)
        = none := by
      simp only [List.map_cons, List.map_nil, Sif.norm3_e1, Sif.norm3_e2]
      unfold Sif.bcastMul
      norm_num
    unfold Sif.cosine_vec
    rw [hd, Option.none_bind]

/-- C3: the O2-B preset equals the generic FLD call with the 687 nm channel
in the `in` role and the 685 nm channel in the `out` role:
`_SIF_O2B (L_685 := a) (L_687 := b) (E_685 := c) (E_687 := d)
  = FLD (L_in := b) (L_out := a) (E_in := d) (E_out := c)`.
(The code passes the 685 nm channel as `L_in`/`E_in`, but `FLD` is invariant
under swapping the in-pair with the out-pair, so the stated equality holds.) -/
theorem Sif.SIF_O2B_role (a b c d : ℚ) :
    Sif.SIF_O2B a b c d = Sif.FLD b a d c := by
  unfold Sif.SIF_O2B Sif.FLD
  have hn : c * b - a * d = -(d * a - b * c) := by ring
  have hd : c - d = -(d - c) := by ring
  rw [hn, hd, neg_div_neg_eq]

/-- C4: every row of `pos_to_vec` has Euclidean norm exactly 1 (hence
within the 1e-9 tolerance), the output has one row per input (azimuth,
altitude) pair, and each row is the pre-normalization vector
`(sin az_rad, cos az_rad, sin alt_rad)` divided by its own norm. -/
theorem Sif.pos_to_vec_unit (ps : List (ℝ × ℝ)) (v : ℝ × ℝ × ℝ)
    (hv : v ∈ Sif.pos_to_vec ps) :
    Sif.norm3 v = 1 ∧ (Sif.pos_to_vec ps).length = ps.length
    ∧ ∃ p ∈ ps, v = Sif.vdiv3 (Sif.rawVec p) (Sif.norm3 (Sif.rawVec p)) := by
  refine ⟨Sif.mem_pos_to_vec_unit hv, by simp [Sif.pos_to_vec], ?_⟩
  unfold Sif.pos_to_vec at hv
  obtain ⟨p, hp, rfl⟩ := List.mem_map.mp hv
  exact ⟨p, hp, rfl⟩

/-- C4 witness: the theorem applied to the single position (0°, 0°),
whose direction vector is (0, 1, 0). -/
theorem Sif.pos_to_vec_unit_witness :
    ((0:ℝ), (1:ℝ), (0:ℝ)) ∈ Sif.pos_to_vec [((0:ℝ), (0:ℝ))]
    ∧ (Sif.norm3 ((0:ℝ), (1:ℝ), (0:ℝ)) = 1
      ∧ (Sif.pos_to_vec [((0:ℝ), (0:ℝ))]).length = [((0:ℝ), (0:ℝ))].length
      ∧ ∃ p ∈ [((0:ℝ), (0:ℝ))], ((0:ℝ), (1:ℝ), (0:ℝ))
          = Sif.vdiv3 (Sif.rawVec p) (Sif.norm3 (Sif.rawVec p))) := by
  have hv : ((0:ℝ), (1:ℝ), (0:ℝ)) ∈ Sif.pos_to_vec [((0:ℝ), (0:ℝ))] := by
    rw [Sif.pos_to_vec_zero_eval]
    exact List.mem_singleton.mpr rfl
  exact ⟨hv, Sif.pos_to_vec_unit _ _ hv⟩

/-- C5 counterexample: with `L_in = L_out = 1`, `E_in = 2 ≠ 3 = E_out`,
`FLD` returns `1`, not `0`: the claim as stated is false. -/
theorem Sif.FLD_const_counterexample :
    (3:ℚ) ≠ 2 ∧ Sif.FLD 1 1 2 3 ≠ 0 := by
  norm_num [Sif.FLD]

/-- C5 amended: for `z ≠ y`, `FLD (L_in := x) (L_out := x) (E_in := y)
(E_out := z)` yields `x` (the numerator reduces to `x * (z - y)`), not `0`. -/
theorem Sif.FLD_const_radiance (x y z : ℚ) (h : z ≠ y) :
    Sif.FLD x x y z = x := by
  unfold Sif.FLD
  rw [div_eq_iff (sub_ne_zero.mpr h)]
  ring

/-- C5 witness: the amended theorem applied at `x = 5`, `y = 2`, `z = 3`. -/
theorem Sif.FLD_const_radiance_witness :
    (3:ℚ) ≠ 2 ∧ Sif.FLD 5 5 2 3 = 5 :=
  ⟨by norm_num, Sif.FLD_const_radiance 5 2 3 (by norm_num)⟩

/-- C6: the O2-A preset is a pure relabeling into the generic FLD call:
`_SIF_O2A (L_757 := a) (L_760 := b) (E_757 := c) (E_760 := d)
  = FLD (L_in := b) (L_out := a) (E_in := d) (E_out := c)`. -/
theorem Sif.SIF_O2A_wrapper (a b c d : ℚ) :
    Sif.SIF_O2A a b c d = Sif.FLD b a d c := rfl

/-- C7: when `E_in = E_out` the FLD division is total (no error is raised)
and follows IEEE-754 semantics, returning NaN or a signed infinity; in
particular `FLD (L_in := 1) (L_out := 1) (E_in := 5) (E_out := 5)`
evaluates `0 / 0` and returns NaN. -/
theorem Sif.FLD_fp_degenerate :
    (∀ L_in L_out E : ℚ,
      Sif.FLD_fp L_in L_out E E = Sif.FpVal.nan
      ∨ Sif.FLD_fp L_in L_out E E = Sif.FpVal.posInf
      ∨ Sif.FLD_fp L_in L_out E E = Sif.FpVal.negInf)
    ∧ Sif.FLD_fp 1 1 5 5 = Sif.FpVal.nan := by
  constructor
  · intro L_in L_out E
    unfold Sif.FLD_fp Sif.fdiv
    rw [sub_self]
    split_ifs <;> simp_all
  · norm_num [Sif.FLD_fp, Sif.fdiv]

/-- C8: whenever `cosine` produces a matrix from two batches of angular
positions, every entry lies in [-1, 1] (hence in [-1.0001, 1.0001]). -/
theorem Sif.cosine_entries_in_range (n sun : List (ℝ × ℝ))
    (C : List (List ℝ)) (h : Sif.cosine n sun = some C) :
    ∀ row ∈ C, ∀ x ∈ row, -1 ≤ x ∧ x ≤ 1 := by
  unfold Sif.cosine Sif.cosine_vec at h
  cases hm : Sif.bcastMul ((Sif.pos_to_vec n).map Sif.norm3)
      ((Sif.pos_to_vec sun).map Sif.norm3) with
  | none => rw [hm, Option.none_bind] at h; cases h
  | some d =>
    rw [hm, Option.some_bind] at h
    cases hb : Sif.bcastDivMat
        (Sif.matmulT (Sif.pos_to_vec n) (Sif.pos_to_vec sun)) d with
    | none => rw [hb, Option.none_bind] at h; cases h
    | some B =>
      rw [hb, Option.some_bind, Option.some_inj] at h
      subst h
      have hn1 : ∀ u ∈ Sif.pos_to_vec n, Sif.norm3 u = 1 :=
        fun u hu => Sif.mem_pos_to_vec_unit hu
      have hs1 : ∀ w ∈ Sif.pos_to_vec sun, Sif.norm3 w = 1 :=
        fun w hw => Sif.mem_pos_to_vec_unit hw
      have hdn : ∀ x ∈ (Sif.pos_to_vec n).map Sif.norm3, x = 1 := by
        intro x hx
        obtain ⟨u, hu, rfl⟩ := List.mem_map.mp hx
        exact hn1 u hu
      have hds : ∀ x ∈ (Sif.pos_to_vec sun).map Sif.norm3, x = 1 := by
        intro x hx
        obtain ⟨w, hw, rfl⟩ := List.mem_map.mp hx
        exact hs1 w hw
      exact Sif.trMat_bnd
        (Sif.bcastDivMat_bnd (Sif.matmulT_unit_bnd hn1 hs1)
          (Sif.bcastMul_ones hdn hds hm) hb)

/-- C8 witness: the theorem applied to the single pair of angular positions
(0°, 0°) and (0°, 0°), for which `cosine` returns the 1×1 matrix [[1]]. -/
theorem Sif.cosine_entries_in_range_witness :
    Sif.cosine [((0:ℝ), (0:ℝ))] [((0:ℝ), (0:ℝ))] = some [[(1:ℝ)]]
    ∧ (-1 ≤ (1:ℝ) ∧ (1:ℝ) ≤ 1) := by
  have hmap : [((0:ℝ), (1:ℝ), (0:ℝ))].map Sif.norm3 = [1] := by
    simp only [List.map_cons, List.map_nil, Sif.norm3_e2]
  have hd : Sif.bcastMul [(1:ℝ)] [(1:ℝ)] = some [1] := by
    unfold Sif.bcastMul
    norm_num
  have hA : Sif.matmulT [((0:ℝ), (1:ℝ), (0:ℝ))] [((0:ℝ), (1:ℝ), (0:ℝ))]
      = [[1]] := by
    unfold Sif.matmulT Sif.dot3
    norm_num
  have hB : Sif.bcastDivMat [[(1:ℝ)]] [(1:ℝ)] = some [[1]] := by
    unfold Sif.bcastDivMat
    norm_num
  have hT : Sif.trMat [[(1:ℝ)]] = [[1]] := by
    unfold Sif.trMat
    norm_num [List.range_succ, List.getD_cons_zero]
  have hc : Sif.cosine [((0:ℝ), (0:ℝ))] [((0:ℝ), (0:ℝ))] = some [[(1:ℝ)]] := by
    unfold Sif.cosine Sif.cosine_vec
    rw [Sif.pos_to_vec_zero_eval, hmap, hd, Option.some_bind, hA, hB,
      Option.some_bind, hT]
  exact ⟨hc, Sif.cosine_entries_in_range _ _ _ hc [(1:ℝ)] (by simp) 1 (by simp)⟩

/-- C9 counterexample: with mismatched lengths 1 and 2 the array `FLD`
silently broadcasts and returns a result instead of failing. -/
theorem Sif.FLDarr_silent_broadcast :
    Sif.FLDarr [(1:ℚ)] [1, 2] [1, 2] [3, 4] = some [1, 0]
    ∧ Sif.FLDarr [(1:ℚ)] [1, 2] [1, 2] [3, 4] ≠ none := by
  constructor
  · norm_num [Sif.FLDarr, Sif.bop]
  · intro h
    simp [Sif.FLDarr, Sif.bop] at h

/-- C9 amended: a shape mismatch fails fast (an incompatible-shapes error,
`none`) only when the mismatched lengths are not broadcastable, i.e. when
no input has length one; length-one inputs are silently broadcast. -/
theorem Sif.FLDarr_mismatch_none (la lb lc ld : List ℚ)
    (h1 : 1 < la.length) (h2 : 1 < lb.length)
    (h3 : 1 < lc.length) (h4 : 1 < ld.length)
    (hne : ¬(la.length = lb.length ∧ lb.length = lc.length
      ∧ lc.length = ld.length)) :
    Sif.FLDarr la lb lc ld = none := by
  unfold Sif.FLDarr
  rw [Sif.bop_of_ne_one _ (by omega) (by omega)]
  by_cases e1 : ld.length = la.length
  · rw [if_pos e1, Option.some_bind,
      Sif.bop_of_ne_one _ (by omega) (by omega)]
    by_cases e2 : lb.length = lc.length
    · rw [if_pos e2, Option.some_bind,
        Sif.bop_of_ne_one _ (by simp [List.length_zipWith]; omega)
          (by simp [List.length_zipWith]; omega)]
      by_cases e3 : (List.zipWith (fun x y => x * y) ld la).length
          = (List.zipWith (fun x y => x * y) lb lc).length
      · exfalso
        simp only [List.length_zipWith] at e3
        exact hne ⟨by omega, by omega, by omega⟩
      · rw [if_neg e3, Option.none_bind]
    · rw [if_neg e2, Option.none_bind]
  · rw [if_neg e1, Option.none_bind]

/-- C9 witness: the amended theorem applied to lengths 2, 2, 2, 3. -/
theorem Sif.FLDarr_mismatch_none_witness :
    (1 < [(1:ℚ), 2].length ∧ 1 < [(1:ℚ), 2].length ∧ 1 < [(1:ℚ), 2].length
      ∧ 1 < [(3:ℚ), 4, 5].length
      ∧ ¬([(1:ℚ), 2].length = [(1:ℚ), 2].length
          ∧ [(1:ℚ), 2].length = [(1:ℚ), 2].length
          ∧ [(1:ℚ), 2].length = [(3:ℚ), 4, 5].length))
    ∧ Sif.FLDarr [(1:ℚ), 2] [1, 2] [1, 2] [3, 4, 5] = none :=
  ⟨⟨by decide, by decide, by decide, by decide, by decide⟩,
    Sif.FLDarr_mismatch_none [(1:ℚ), 2] [1, 2] [1, 2] [3, 4, 5]
      (by decide) (by decide) (by decide) (by decide) (by decide)⟩

/-- C10: for every azimuth and altitude, the pre-normalization vector
`(sin az_rad, cos az_rad, sin alt_rad)` formed in `pos_to_vec` has
Euclidean norm at least 1 (since sin² + cos² = 1), so the normalization
divisor is never zero. -/
theorem Sif.rawVec_norm_safe (azimuth altitude : ℝ) :
    1 ≤ Sif.norm3 (Sif.rawVec (azimuth, altitude))
    ∧ Sif.norm3 (Sif.rawVec (azimuth, altitude)) ≠ 0 := by
  have h := Sif.one_le_norm3_rawVec (azimuth, altitude)
  exact ⟨h, by intro h0; rw [h0] at h; linarith⟩
